import Mathlib

/-!
Shallow embedding of the core of the libasampo / audiothread repository
(step sequencer, drumkit renderer, audio sources and source groups),
with machine-checked statements of the specified properties.

Modelling conventions:
* f32 and f64 sample and time values are modelled as rationals; all
  arithmetic relevant to the verified claims is exact in the source
  (small integer ratios), so the rational model is faithful.
* usize and the nonzero integer refinements (Samplerate, BPM, NumChannels,
  TimeSignature) are modelled as Nat, with nonzeroness carried as
  hypotheses where a property depends on it.
* Rust Vec and slices are Lists; a slice operation whose bound can exceed
  the length of the underlying buffer (a Rust panic) is modelled either by
  an Option result (panic = none) or, where reachable states always
  satisfy the bound, by the total drop/take form with the precondition
  recorded as a hypothesis.
* spsc ring buffers are a capacity plus a FIFO list; push truncates at
  capacity exactly as ringbuf push_slice does.
-/

set_option maxHeartbeats 1600000

namespace Asampo

/-! ### types.rs: stream state and audio specs -/

/-- Stream state of a source (audiothread types.rs). -/
inductive StreamState where
  | Streaming
  | Complete
deriving DecidableEq, Repr

/-- AudioSpec from audiothread types.rs; samplerate and channels are
NonZeroU32 / NonZeroU8 in the source, modelled as Nat with positivity
hypotheses where needed. -/
structure AudioSpec where
  samplerate : Nat
  channels : Nat
deriving DecidableEq, Repr

/-! ### ext.rs: buffer iterator operations -/

/-- zip_self from audiothread ext.rs: pair every element with itself. -/
def zipSelf (l : List ℚ) : List (ℚ × ℚ) := l.map (fun a => (a, a))

/-- doubled from audiothread ext.rs: zip_self then flat_map emitting both
components, doubling the channel count of an interleaved stream. -/
def doubled (l : List ℚ) : List ℚ :=
  (zipSelf l).flatMap (fun p => [p.1, p.2])

/-- Enumerate-filter-project core of drop_channels, generalized over the
index at which enumeration starts (the source enumerates from 0). -/
def dropChannelsAux (start : Nat) (cfrom cto : Nat) (l : List ℚ) : List ℚ :=
  (((l.enumFrom start).filter (fun p => p.1 % cfrom < cto)).map Prod.snd)

/-- drop_channels from audiothread ext.rs: keep samples whose index modulo
cfrom is below cto.  The source asserts cfrom > cto. -/
def drop_channels (l : List ℚ) (cfrom cto : Nat) : List ℚ :=
  dropChannelsAux 0 cfrom cto l

/-! ### libasampo sequences/time.rs -/

/-- NoteLength from sequences/time.rs. -/
inductive NoteLength where
  | Eighth
  | Sixteenth
deriving DecidableEq, Repr

/-- NoteLength::reciprocal (an f64 in the source, 8.0 or 16.0). -/
def NoteLength.reciprocal : NoteLength → ℚ
  | .Eighth => 8
  | .Sixteenth => 16

/-- TimeSpec from sequences/time.rs.  In the source bpm is NonZeroU16 and
the signature components NonZeroU8; swing lies in the interval from 0 to 1
by construction. -/
structure TimeSpec where
  bpm : Nat
  sigUpper : Nat
  sigLower : Nat
  swing : ℚ
deriving DecidableEq, Repr

/-- TimeSpec::beats_per_second. -/
def TimeSpec.beats_per_second (t : TimeSpec) : ℚ := (t.bpm : ℚ) / 60

/-- TimeSpec::seconds_per_beat. -/
def TimeSpec.seconds_per_beat (t : TimeSpec) : ℚ := 1 / t.beats_per_second

/-- TimeSpec::samples_per_beat. -/
def TimeSpec.samples_per_beat (t : TimeSpec) (rate : Nat) : ℚ :=
  (rate : ℚ) * t.seconds_per_beat

/-- TimeSpec::notes_per_beat. -/
def TimeSpec.notes_per_beat (t : TimeSpec) (note : NoteLength) : ℚ :=
  (1 / (t.sigLower : ℚ)) * note.reciprocal

/-- TimeSpec::seconds_per_note. -/
def TimeSpec.seconds_per_note (t : TimeSpec) (note : NoteLength) : ℚ :=
  t.seconds_per_beat / t.notes_per_beat note

/-- TimeSpec::samples_per_note. -/
def TimeSpec.samples_per_note (t : TimeSpec) (rate : Nat) (note : NoteLength) : ℚ :=
  t.seconds_per_note note * (rate : ℚ)

/-! ### libasampo sequences/mod.rs -/

/-- DrumkitLabel from samplesets/mod.rs: the closed set of drum voices. -/
inductive DrumkitLabel where
  | RimShot
  | Clap
  | ClosedHihat
  | OpenHihat
  | CrashCymbal
  | RideCymbal
  | Shaker
  | BassDrum
  | SnareDrum
  | LowTom
  | MidTom
  | HighTom
  | Perc1
  | Perc2
  | Perc3
  | Perc4
deriving DecidableEq, Repr

/-- Trigger from sequences/mod.rs. -/
structure Trigger where
  label : DrumkitLabel
  amplitude : ℚ
deriving DecidableEq, Repr

/-- StepInfo from sequences/mod.rs; triggers is a borrowed Vec in the
source, copied here. -/
structure StepInfo where
  length_in_samples_48k : ℚ
  triggers : List Trigger
deriving DecidableEq, Repr

/-- StepInfo::length_in_samples. -/
def StepInfo.length_in_samples (s : StepInfo) (rate : Nat) : ℚ :=
  s.length_in_samples_48k * ((rate : ℚ) / 48000)

/-- DrumkitSequence from sequences/mod.rs.  The uuid and name fields are
identity metadata with no bearing on any verified property and are
omitted. -/
structure DrumkitSequence where
  timespec : TimeSpec
  step_base_length : NoteLength
  steps : List (List Trigger)
deriving DecidableEq, Repr

/-- The step count computed by DrumkitSequence::new:
upper as u64 times ((reciprocal / lower as f64) as u64); the cast to u64
truncates the quotient before the multiplication. -/
def DrumkitSequence.newLen (timespec : TimeSpec) (base : NoteLength) : Nat :=
  timespec.sigUpper * (⌊base.reciprocal / (timespec.sigLower : ℚ)⌋).toNat

/-- DrumkitSequence::new: steps initialized to newLen empty steps. -/
def DrumkitSequence.new (timespec : TimeSpec) (base : NoteLength) : DrumkitSequence :=
  { timespec := timespec
    step_base_length := base
    steps := List.replicate (DrumkitSequence.newLen timespec base) [] }

/-- StepSequenceOps::len for DrumkitSequence. -/
def DrumkitSequence.len (seq : DrumkitSequence) : Nat := seq.steps.length

/-- StepSequenceOps::step for DrumkitSequence: None past the end; swing
skews even steps by (1 + swing) and odd steps by (1 - swing), with the
length normalized to 48000 Hz. -/
def DrumkitSequence.step (seq : DrumkitSequence) (n : Nat) : Option StepInfo :=
  match seq.steps[n]? with
  | some triggers =>
      let base_len_in_samples := seq.timespec.samples_per_note 48000 seq.step_base_length
      let sign : ℚ := if n % 2 = 0 then 1 else -1
      some { length_in_samples_48k := base_len_in_samples * (1 + sign * seq.timespec.swing)
             triggers := triggers }
  | none => none

/-- StepSequenceOps::clear_step: out-of-range indices are ignored. -/
def DrumkitSequence.clear_step (seq : DrumkitSequence) (n : Nat) : DrumkitSequence :=
  match seq.steps[n]? with
  | some _ => { seq with steps := seq.steps.set n [] }
  | none => seq

/-- StepSequenceOps::set_step_trigger: at a valid step, retain the triggers
with a different label and push the new trigger; out-of-range indices are
ignored. -/
def DrumkitSequence.set_step_trigger (seq : DrumkitSequence) (n : Nat)
    (label : DrumkitLabel) (amp : ℚ) : DrumkitSequence :=
  match seq.steps[n]? with
  | some v =>
      { seq with
        steps := seq.steps.set n
          ((v.filter (fun t => t.label ≠ label)) ++ [{ label := label, amplitude := amp }]) }
  | none => seq

/-- StepSequenceOps::unset_step_trigger: at a valid step, retain the
triggers with a different label; out-of-range indices are ignored. -/
def DrumkitSequence.unset_step_trigger (seq : DrumkitSequence) (n : Nat)
    (label : DrumkitLabel) : DrumkitSequence :=
  match seq.steps[n]? with
  | some v => { seq with steps := seq.steps.set n (v.filter (fun t => t.label ≠ label)) }
  | none => seq

/-! ### libasampo sequences/drumkit_render_thread.rs -/

/-- The producer-side buffer size (in f32 samples) allocated by State::new
in drumkit_render_thread.rs: ((samplerate as usize) / 8) * 2.  Both the
scratch Vec and the spsc ring shared with the mixer get this many samples. -/
def dkrtBufsize (samplerate : Nat) : Nat := samplerate / 8 * 2

/-- Capacity of the drum render thread's ring in stereo frames (the ring
holds dkrtBufsize f32 samples and the stream is stereo). -/
def dkrtRingCapacityStereoFrames (samplerate : Nat) : Nat := dkrtBufsize samplerate / 2

/-! ### Ring buffers (the ringbuf crate's HeapRb, as used by the sources
and source groups): a bounded FIFO of f32 samples. -/

/-- A heap ring buffer: capacity plus current contents, oldest first. -/
structure Ring where
  cap : Nat
  data : List ℚ
deriving DecidableEq, Repr

/-- occupied_len. -/
def Ring.occupied (r : Ring) : Nat := r.data.length

/-- Remove the n oldest samples (the effect of pop_iter consuming n). -/
def Ring.popN (r : Ring) (n : Nat) : Ring := { r with data := r.data.drop n }

/-- push_slice: append as many samples as fit, silently dropping the rest
(ringbuf's push_slice returns the count pushed and never overwrites). -/
def Ring.pushSlice (r : Ring) (l : List ℚ) : Ring :=
  { r with data := r.data ++ l.take (r.cap - r.data.length) }

/-- Pairwise in-place addition of a source slice into an output buffer:
models out.iter_mut().zip(src).for_each(|(o, s)| *o += s).  The output
keeps its length; only the common prefix is modified. -/
def zipAdd : List ℚ → List ℚ → List ℚ
  | out, [] => out
  | [], _ => []
  | o :: out, s :: src => (o + s) :: zipAdd out src

/-- zipAdd into the suffix of out starting at sample index start: models
out.slice_frames_mut(spec, ofs..).iter_mut().zip(src) with
start = ofs * channels.  Reachable call sites satisfy start ≤ out.length. -/
def zipAddFrom (out : List ℚ) (start : Nat) (src : List ℚ) : List ℚ :=
  out.take start ++ zipAdd (out.drop start) src

/-! ### audiothread source/mod.rs: FakeSource -/

/-- FakeSource (test-only source variant in source/mod.rs). -/
structure FakeSource where
  spec : AudioSpec
  buffer : List ℚ
  stream_state : StreamState
  read_frame_offset : Nat
deriving DecidableEq, Repr

/-- FakeSource::mix_to_same_spec: sum the unread tail of the internal
buffer into out, advance the read offset by the number of frames consumed,
and flip to Complete when the offset reaches the end. -/
def FakeSource.mix_to_same_spec (s : FakeSource) (out : List ℚ) :
    FakeSource × List ℚ :=
  let ch := s.spec.channels
  let self_offset_buffer := s.buffer.drop (s.read_frame_offset * ch)
  let out2 := zipAdd out self_offset_buffer
  let newOffset := s.read_frame_offset + min (out.length / ch) (self_offset_buffer.length / ch)
  let newState := if newOffset = s.buffer.length / ch then StreamState.Complete else s.stream_state
  ({ s with read_frame_offset := newOffset, stream_state := newState }, out2)

/-! ### audiothread source/pulled.rs: PulledSource -/

/-- PulledSourcePullReply from source/pulled.rs. -/
inductive PulledSourcePullReply where
  | FramesProvided (n : Nat)
  | Disconnect
deriving DecidableEq, Repr

/-- The outcome of Receiver::try_recv on the pull-response channel. -/
inductive TryRecvResult where
  | ok (reply : PulledSourcePullReply)
  | empty
  | disconnected
deriving DecidableEq, Repr

/-- PulledSource from source/pulled.rs.  The channel endpoints are
external; update takes the received reply (and whether the send on the
pull-request channel succeeds) as parameters. -/
structure PulledSource where
  spec : AudioSpec
  stream_state : StreamState
  buffer_rx : Ring
  pull_req_pending : Bool
deriving DecidableEq, Repr

/-- PulledSource::from_setup. -/
def PulledSource.from_setup (spec : AudioSpec) (buffer_rx : Ring) : PulledSource :=
  { spec := spec
    stream_state := .Streaming
    buffer_rx := buffer_rx
    pull_req_pending := false }

/-- The test 2 * occupied < capacity models fraction_filled() < 0.5
(occupied as f32 / capacity as f32 < 0.5, exact at the scales involved). -/
def PulledSource.wantsRefill (s : PulledSource) : Prop :=
  2 * s.buffer_rx.occupied < s.buffer_rx.cap

instance (s : PulledSource) : Decidable s.wantsRefill := by
  unfold PulledSource.wantsRefill; infer_instance

/-- PulledSource::update: while Streaming, either consume a pending pull
reply (FramesProvided clears the pending flag, Disconnect or a broken
channel completes the stream) or, when the ring is under half full, send a
new pull request (a failed send also completes the stream). -/
def PulledSource.update (s : PulledSource) (recv : TryRecvResult) (send_ok : Bool) :
    PulledSource :=
  match s.stream_state with
  | .Complete => s
  | .Streaming =>
      if s.pull_req_pending then
        match recv with
        | .ok (.FramesProvided _) => { s with pull_req_pending := false }
        | .ok .Disconnect => { s with stream_state := .Complete }
        | .empty => s
        | .disconnected => { s with stream_state := .Complete }
      else if s.wantsRefill then
        if send_ok then { s with pull_req_pending := true }
        else { s with stream_state := .Complete }
      else s

/-- PulledSource::mix_to_same_spec: pop up to out.length samples from the
consumer ring and sum them into out.  The stream state is not consulted. -/
def PulledSource.mix_to_same_spec (s : PulledSource) (out : List ℚ) :
    PulledSource × List ℚ :=
  let popped := min out.length s.buffer_rx.occupied
  ({ s with buffer_rx := s.buffer_rx.popN popped },
   zipAdd out (s.buffer_rx.data.take popped))

/-! ### audiothread source/symphonia.rs: SymphoniaSource -/

/-- One packet yielded by the format reader; decoded is none when the
decoder fails on the packet (terminating the stream). -/
structure Packet where
  track_id : Nat
  decoded : Option (List ℚ)
deriving DecidableEq, Repr

/-- SymphoniaSource: the external format reader and decoder pair is
modelled by the list of packets it will still yield; an exhausted list
models next_packet returning an error (end of stream). -/
structure SymphoniaSource where
  spec : AudioSpec
  stream_state : StreamState
  packets : List Packet
  track_id : Nat
  buffer : Ring
deriving DecidableEq, Repr

/-- Result of the decode-and-mix loop inside
SymphoniaSource::mix_to_same_spec. -/
structure SymphoniaMixResult where
  packets : List Packet
  out : List ℚ
  buffer : Ring
  completed : Bool
deriving DecidableEq, Repr

/-- The while frames_needed > 0 loop of SymphoniaSource::mix_to_same_spec:
decode_next_packet skips packets of other tracks, a reader error (list
exhausted) or decoder error completes the stream, and a surplus from the
final packet is pushed into the internal ring.  The source's locals
num_decoded_frames = data.length / ch and
num_decoded_frames_mixed = min (needed) (num_decoded_frames) are written
inline. -/
def symphoniaMixLoop (ch tid : Nat) :
    List Packet → List ℚ → Nat → Nat → Ring → SymphoniaMixResult
  | packets, out, _, 0, buffer =>
      { packets := packets, out := out, buffer := buffer, completed := false }
  | [], out, _, _ + 1, buffer =>
      { packets := [], out := out, buffer := buffer, completed := true }
  | p :: rest, out, ofs, needed + 1, buffer =>
      if p.track_id ≠ tid then
        symphoniaMixLoop ch tid rest out ofs (needed + 1) buffer
      else
        match p.decoded with
        | none =>
            { packets := rest, out := out, buffer := buffer, completed := true }
        | some data =>
            symphoniaMixLoop ch tid rest
              (zipAddFrom out (ofs * ch) data)
              (ofs + min (needed + 1) (data.length / ch))
              (needed + 1 - min (needed + 1) (data.length / ch))
              (if data.length / ch - min (needed + 1) (data.length / ch) > 0 then
                buffer.pushSlice (data.drop (min (needed + 1) (data.length / ch) * ch))
              else buffer)

/-- SymphoniaSource::mix_to_same_spec: drain previously decoded samples
from the internal ring into out, then decode packets until out is full or
the stream ends. -/
def SymphoniaSource.mix_to_same_spec (s : SymphoniaSource) (out : List ℚ) :
    SymphoniaSource × List ℚ :=
  let ch := s.spec.channels
  let nOutFrames := out.length / ch
  let availFrames := s.buffer.occupied / ch
  let drained := min nOutFrames availFrames
  let popped := min out.length s.buffer.occupied
  let out1 := zipAdd out (s.buffer.data.take popped)
  let buffer1 := s.buffer.popN popped
  let needed := nOutFrames - drained
  let r := symphoniaMixLoop ch s.track_id s.packets out1 drained needed buffer1
  ({ s with
      packets := r.packets
      buffer := r.buffer
      stream_state := if r.completed then .Complete else s.stream_state },
   r.out)

/-! ### audiothread source/mod.rs: the closed Source union -/

/-- Source from source/mod.rs (the tagged union over the test-only fake,
the file-decoded and the externally pulled variants). -/
inductive Source where
  | fake (s : FakeSource)
  | symphonia (s : SymphoniaSource)
  | pulled (s : PulledSource)
deriving DecidableEq, Repr

/-- SourceOps::spec, dispatching on the tag. -/
def Source.spec : Source → AudioSpec
  | .fake s => s.spec
  | .symphonia s => s.spec
  | .pulled s => s.spec

/-- SourceOps::stream_state, dispatching on the tag. -/
def Source.stream_state : Source → StreamState
  | .fake s => s.stream_state
  | .symphonia s => s.stream_state
  | .pulled s => s.stream_state

/-- SourceOps::mix_to_same_spec, dispatching on the tag. -/
def Source.mix_to_same_spec : Source → List ℚ → Source × List ℚ
  | .fake s, out =>
      let r := s.mix_to_same_spec out
      (.fake r.1, r.2)
  | .symphonia s, out =>
      let r := s.mix_to_same_spec out
      (.symphonia r.1, r.2)
  | .pulled s, out =>
      let r := s.mix_to_same_spec out
      (.pulled r.1, r.2)

/-- Structural invariant of reachable fake-source states: nonzero channel
count, a whole number of frames in the buffer (a stated precondition of
the frame accessors), and on completion the read offset has consumed the
whole buffer. -/
def FakeSourceInv (s : FakeSource) : Prop :=
  0 < s.spec.channels ∧ s.buffer.length % s.spec.channels = 0 ∧
    (s.stream_state = .Complete → s.buffer.length ≤ s.read_frame_offset * s.spec.channels)

instance (s : FakeSource) : Decidable (FakeSourceInv s) := by
  unfold FakeSourceInv
  infer_instance

/-! ### libasampo sequences/render.rs: the drumkit sequence renderer -/

/-- One sample-cache generation: the HashMap from DrumkitLabel to stereo
audio resampled to the output rate, modelled as an association list with
at most one entry per label. -/
abbrev SampleTable : Type := List (DrumkitLabel × List ℚ)

/-- HashMap::get on a sample table. -/
def tableGet : SampleTable → DrumkitLabel → Option (List ℚ)
  | [], _ => none
  | (k, v) :: rest, label => if k = label then some v else tableGet rest label

/-- HashMap::contains_key on a sample table. -/
def tableContains (t : SampleTable) (label : DrumkitLabel) : Bool :=
  (tableGet t label).isSome

/-- ActiveSound from sequences/render.rs. -/
structure ActiveSound where
  label : DrumkitLabel
  samples_generation : Nat
  amplitude : ℚ
  offset_in_frames : Nat
  num_frames : Nat
deriving DecidableEq, Repr

/-- DrumkitSequenceEvent; Instant timestamps are modelled as the frame
offset from the start of the render call that recorded the event. -/
structure DrumkitSequenceEvent where
  labels : List DrumkitLabel
  step : Nat
  timeFrames : Nat
deriving DecidableEq, Repr

/-- ThreadedPromiseState: the observable poll result of one async sample
loader worker. -/
inductive ThreadedPromiseState where
  | Pending
  | Ready (t : SampleTable)
  | Failed
deriving DecidableEq, Repr

/-- DrumkitSequenceRenderer from sequences/render.rs.  The sample_loaders
field holds thread handles in the source; here the poll results of the
loaders arrive as an explicit input to check_sample_loaders. -/
structure DrumkitSequenceRenderer where
  sequence : DrumkitSequence
  output_samplerate : Nat
  samples : List SampleTable
  samples_current_generation : Nat
  current_step : Option Nat
  step_frames_remain : Option ℚ
  active_sounds : List ActiveSound
  mixbuffer : Option (List ℚ)
deriving DecidableEq, Repr

/-- DrumkitSequenceRenderer::new. -/
def DrumkitSequenceRenderer.new (seq : DrumkitSequence) (output_samplerate : Nat) :
    DrumkitSequenceRenderer :=
  { sequence := seq
    output_samplerate := output_samplerate
    samples := [[]]
    samples_current_generation := 0
    current_step := none
    step_frames_remain := none
    active_sounds := []
    mixbuffer := none }

/-- The smallest generation pinned by any active sound (None when no sound
is active): active_sounds.iter().map(samples_generation).min(). -/
def minPinnedGeneration : List ActiveSound → Option Nat
  | [] => none
  | s :: rest =>
      match minPinnedGeneration rest with
      | none => some s.samples_generation
      | some m => some (min s.samples_generation m)

/-- DrumkitSequenceRenderer::unload_stale_samples: drop every generation
below the earliest pinned one (or below the current generation when no
sound is active) and renumber the remaining generations. -/
def DrumkitSequenceRenderer.unload_stale_samples (r : DrumkitSequenceRenderer) :
    DrumkitSequenceRenderer :=
  let num_stale_gens :=
    match minPinnedGeneration r.active_sounds with
    | some m => m
    | none => r.samples_current_generation
  if num_stale_gens > 0 then
    { r with
        samples := r.samples.drop num_stale_gens
        samples_current_generation := r.samples_current_generation - num_stale_gens
        active_sounds := r.active_sounds.map
          (fun s => { s with samples_generation := s.samples_generation - num_stale_gens }) }
  else r

/-- The retain_mut pass of check_sample_loaders: append each Ready result
as a fresh generation (advancing the current generation index), keep
Pending loaders, drop Failed ones. -/
def pushReadyLoaders (r : DrumkitSequenceRenderer) :
    List ThreadedPromiseState → DrumkitSequenceRenderer
  | [] => r
  | .Pending :: rest => pushReadyLoaders r rest
  | .Failed :: rest => pushReadyLoaders r rest
  | .Ready t :: rest =>
      pushReadyLoaders
        { r with
            samples := r.samples ++ [t]
            samples_current_generation := r.samples_current_generation + 1 }
        rest

/-- The generations delivered by a batch of loader polls, in order. -/
def readyTables : List ThreadedPromiseState → List SampleTable
  | [] => []
  | .Ready t :: rest => t :: readyTables rest
  | .Pending :: rest => readyTables rest
  | .Failed :: rest => readyTables rest

/-- DrumkitSequenceRenderer::check_sample_loaders, with the poll results of
the in-flight loaders supplied as input: ingest completed generations and,
if any arrived, retire stale generations. -/
def DrumkitSequenceRenderer.check_sample_loaders (r : DrumkitSequenceRenderer)
    (polls : List ThreadedPromiseState) : DrumkitSequenceRenderer :=
  let generation_pre := r.samples_current_generation
  let r2 := pushReadyLoaders r polls
  if r2.samples_current_generation > generation_pre then
    r2.unload_stale_samples
  else r2

/-- A step of the renderer preserves every active sound (same label,
amplitude, read offset and frame count, in the same order) and keeps each
sound's pinned generation index pointing at the same label-to-audio
table. -/
def SoundsPinnedPreserved (rOld rNew : DrumkitSequenceRenderer) : Prop :=
  rNew.active_sounds.length = rOld.active_sounds.length ∧
  ∀ (i : Nat) (h1 : i < rOld.active_sounds.length)
      (h2 : i < rNew.active_sounds.length),
    (rNew.active_sounds.get ⟨i, h2⟩).label = (rOld.active_sounds.get ⟨i, h1⟩).label ∧
    (rNew.active_sounds.get ⟨i, h2⟩).amplitude =
      (rOld.active_sounds.get ⟨i, h1⟩).amplitude ∧
    (rNew.active_sounds.get ⟨i, h2⟩).offset_in_frames =
      (rOld.active_sounds.get ⟨i, h1⟩).offset_in_frames ∧
    (rNew.active_sounds.get ⟨i, h2⟩).num_frames =
      (rOld.active_sounds.get ⟨i, h1⟩).num_frames ∧
    rNew.samples[(rNew.active_sounds.get ⟨i, h2⟩).samples_generation]? =
      rOld.samples[(rOld.active_sounds.get ⟨i, h1⟩).samples_generation]?

/-- LoadedSequenceInfo from sequences/render.rs. -/
structure LoadedSequenceInfo where
  step_frames_remain : ℚ
  active_sounds : List ActiveSound
  mixbuffer_cap : Nat
deriving DecidableEq, Repr

/-- DrumkitSequenceRenderer::load_sequence.  The source unwraps
seq.step(0); none models the panic on an empty sequence.  The mixbuffer
capacity is (4.0 * samples_per_note) as usize, i.e. the truncated value,
in f32 samples. -/
def loadSequence (seq : DrumkitSequence) (output_samplerate : Nat)
    (samples : SampleTable) (samples_generation : Nat) : Option LoadedSequenceInfo :=
  match seq.step 0 with
  | none => none
  | some step0 =>
      let active := step0.triggers.filterMap (fun t =>
        (tableGet samples t.label).map (fun sampledata =>
          { label := t.label
            samples_generation := samples_generation
            amplitude := t.amplitude
            offset_in_frames := 0
            num_frames := sampledata.length / 2 : ActiveSound }))
      let cap : ℚ := 4 * seq.timespec.samples_per_note output_samplerate seq.step_base_length
      some { step_frames_remain := step0.length_in_samples output_samplerate
             active_sounds := active
             mixbuffer_cap := (⌊cap⌋).toNat }

/-- Outcome of a render call: ok carries the returned pair (samples
written and optional events) together with the final renderer and output
buffer; panic models a Rust panic (slice out of bounds, unwrap on None,
or the modulo of the step advance on an empty sequence); outOfFuel means
the loop bound of the model was exhausted, never that the source
terminated. -/
inductive RenderOutcome where
  | ok (written : Nat) (events : Option (List DrumkitSequenceEvent))
      (renderer : DrumkitSequenceRenderer) (buffer : List ℚ)
  | panic
  | outOfFuel
deriving DecidableEq, Repr

/-- Mix every active sound into the first frames_this_cycle stereo frames
of the mixbuffer, scaled by its amplitude, advancing its read offset.
Panics (none) when a pinned generation or label is missing from the sample
cache, mirroring the source's unwrap. -/
def mixActiveSounds (samples : List SampleTable) (fc : Nat) :
    List ActiveSound → List ℚ → Option (List ℚ × List ActiveSound)
  | [], mixbuffer => some (mixbuffer, [])
  | s :: rest, mixbuffer =>
      match samples[s.samples_generation]? with
      | none => none
      | some table =>
          match tableGet table s.label with
          | none => none
          | some sound =>
              let frames := min fc (s.num_frames - s.offset_in_frames)
              let slice := (sound.drop (s.offset_in_frames * 2)).take (frames * 2)
              let mixbuffer2 := zipAdd mixbuffer (slice.map (fun x => x * s.amplitude))
              match mixActiveSounds samples fc rest mixbuffer2 with
              | none => none
              | some (mb, sounds) =>
                  some (mb, { s with offset_in_frames := s.offset_in_frames + frames } :: sounds)

/-- Mutable state threaded through the render loop. -/
structure RenderLoopState where
  frames_to_write : Nat
  output_buffer_offset : Nat
  frames_written : Nat
  buffer : List ℚ
  events : List DrumkitSequenceEvent
  step_frames_remain : ℚ
  current_step : Nat
  active_sounds : List ActiveSound
  mixbuffer : List ℚ
deriving DecidableEq, Repr

/-- One while-iteration body plus recursion of
DrumkitSequenceRenderer::render, with an explicit iteration bound.
Mirrors the source: compute frames_this_cycle, zero and fill the
mixbuffer (panicking when frames_this_cycle * 2 exceeds its capacity,
which is the slice panic of mixbuffer[..frames_this_cycle * 2]), drop
finished sounds, copy into the output buffer, and on step_frames_remain
dropping below 1 advance the step, start sounds for the new step's
triggers present in the current generation, and record an event. -/
def renderLoop (seq : DrumkitSequence) (rate : Nat) (samples : List SampleTable)
    (gen : Nat) : Nat → RenderLoopState → RenderOutcome
  | 0, _ => .outOfFuel
  | fuel + 1, st =>
      if st.frames_to_write = 0 then
        .ok st.buffer.length
          (if st.events.isEmpty then none else some st.events)
          { sequence := seq
            output_samplerate := rate
            samples := samples
            samples_current_generation := gen
            current_step := some st.current_step
            step_frames_remain := some st.step_frames_remain
            active_sounds := st.active_sounds
            mixbuffer := some st.mixbuffer }
          st.buffer
      else
        let fc := min st.frames_to_write (⌊st.step_frames_remain⌋).toNat
        if fc * 2 > st.mixbuffer.length then .panic
        else
          let mixZeroed := List.replicate (fc * 2) (0 : ℚ) ++ st.mixbuffer.drop (fc * 2)
          match mixActiveSounds samples fc st.active_sounds mixZeroed with
          | none => .panic
          | some (mixFilled, soundsAdvanced) =>
              let soundsKept := soundsAdvanced.filter
                (fun s => s.offset_in_frames < s.num_frames)
              let buffer2 := st.buffer.take st.output_buffer_offset
                ++ mixFilled.take (fc * 2)
                ++ st.buffer.drop (st.output_buffer_offset + fc * 2)
              let frames_written2 := st.frames_written + fc
              let offset2 := st.output_buffer_offset + fc * 2
              let sfr2 := st.step_frames_remain - (fc : ℚ)
              let ftw2 := st.frames_to_write - fc
              if sfr2 < 1 then
                if seq.len = 0 then .panic
                else
                  let step2 := (st.current_step + 1) % seq.len
                  let advanced : ℚ × List ActiveSound :=
                    match seq.step step2 with
                    | some info =>
                        (sfr2 + info.length_in_samples rate,
                         soundsKept ++ (info.triggers.filter
                              (fun t : Trigger =>
                                tableContains (samples.getD gen []) t.label)).filterMap
                            (fun t : Trigger => (tableGet (samples.getD gen []) t.label).map
                              (fun sampledata =>
                                { label := t.label
                                  samples_generation := gen
                                  amplitude := t.amplitude
                                  offset_in_frames := 0
                                  num_frames := sampledata.length / 2 : ActiveSound })))
                    | none => (sfr2, soundsKept)
                  let ev : DrumkitSequenceEvent :=
                    { labels := advanced.2.map (fun s => s.label)
                      step := step2
                      timeFrames := frames_written2 }
                  renderLoop seq rate samples gen fuel
                    { frames_to_write := ftw2
                      output_buffer_offset := offset2
                      frames_written := frames_written2
                      buffer := buffer2
                      events := st.events ++ [ev]
                      step_frames_remain := advanced.1
                      current_step := step2
                      active_sounds := advanced.2
                      mixbuffer := mixFilled }
              else
                renderLoop seq rate samples gen fuel
                  { frames_to_write := ftw2
                    output_buffer_offset := offset2
                    frames_written := frames_written2
                    buffer := buffer2
                    events := st.events
                    step_frames_remain := sfr2
                    current_step := st.current_step
                    active_sounds := soundsKept
                    mixbuffer := mixFilled }

/-- DrumkitSequenceRenderer::render, with the loader poll results and the
loop iteration bound explicit.  Polls loaders, lazily initializes the
sequence position (recording the step-0 event), then runs the loop over
buffer.length / 2 stereo frames. -/
def DrumkitSequenceRenderer.render (r : DrumkitSequenceRenderer)
    (polls : List ThreadedPromiseState) (buffer : List ℚ) (fuel : Nat) : RenderOutcome :=
  let r1 := r.check_sample_loaders polls
  let initEvents : Option (DrumkitSequenceRenderer × List DrumkitSequenceEvent) :=
    match r1.current_step with
    | some _ => some (r1, [])
    | none =>
        match loadSequence r1.sequence r1.output_samplerate
            (r1.samples.getD r1.samples_current_generation []) r1.samples_current_generation with
        | none => none
        | some info =>
            some ({ r1 with
                      current_step := some 0
                      step_frames_remain := some info.step_frames_remain
                      active_sounds := info.active_sounds
                      mixbuffer := some (List.replicate info.mixbuffer_cap 0) },
                  [{ labels := info.active_sounds.map (fun s => s.label)
                     step := 0
                     timeFrames := 0 }])
  match initEvents with
  | none => .panic
  | some (r2, events0) =>
      match r2.current_step, r2.step_frames_remain, r2.mixbuffer with
      | some cs, some sfr, some mb =>
          renderLoop r2.sequence r2.output_samplerate r2.samples
            r2.samples_current_generation fuel
            { frames_to_write := buffer.length / 2
              output_buffer_offset := 0
              frames_written := 0
              buffer := buffer
              events := events0
              step_frames_remain := sfr
              current_step := cs
              active_sounds := r2.active_sounds
              mixbuffer := mb }
      | _, _, _ => .panic

/-! ### audiothread source/mod.rs: SourceGroup -/

/-- Mix every source of the group into the shared pre-conversion scratch
slice, in order, threading the updated source states:
for source in self.sources.iter_mut() { source.mix_to_same_spec(mixbuf) }. -/
def mixSources : List Source → List ℚ → List Source × List ℚ
  | [], mixbuf => ([], mixbuf)
  | src :: rest, mixbuf =>
      let r := src.mix_to_same_spec mixbuf
      let r2 := mixSources rest r.2
      (r.1 :: r2.1, r2.2)

/-- The while num_channels < output_channels loop of the channel
conversion: repeatedly double the stream.  The iteration bound target is
sufficient for any nonzero starting channel count, since the count at
least doubles each pass. -/
def doubleLoop : Nat → List ℚ → Nat → Nat → List ℚ × Nat
  | 0, l, n, _ => (l, n)
  | fuel + 1, l, n, target =>
      if n < target then doubleLoop fuel (doubled l) (n * 2) target else (l, n)

/-- The channel conversion step of SourceGroup::mix_to_given_spec: double
up to or past the output channel count, then drop channels on overshoot. -/
def channelConvert (conv : Option (Nat × Nat)) (mixbuf : List ℚ) : List ℚ :=
  match conv with
  | none => mixbuf
  | some (input_channels, output_channels) =>
      let r := doubleLoop output_channels mixbuf input_channels output_channels
      if r.2 > output_channels then drop_channels r.1 r.2 output_channels else r.1

/-- SourceGroup from source/mod.rs.  samplerate_conv is true when the
group owns a libsamplerate converter (source and output rates differ); the
converter itself is an opaque external utility whose per-call output is
supplied as an oracle argument to mix_to_given_spec. -/
structure SourceGroup where
  spec : AudioSpec
  sources : List Source
  channel_conv : Option (Nat × Nat)
  samplerate_conv : Bool
  samplerate_conv_done_once : Bool
  pre_conv_buf : List ℚ
  post_conv_overflow_buf : Ring
deriving DecidableEq, Repr

/-- SourceGroup::new: one second of scratch and one second of overflow
ring, converters selected iff the channel counts and rates differ. -/
def SourceGroup.new (source_spec output_spec : AudioSpec) : SourceGroup :=
  { spec := source_spec
    sources := []
    channel_conv :=
      if source_spec.channels ≠ output_spec.channels then
        some (source_spec.channels, output_spec.channels)
      else none
    samplerate_conv := source_spec.samplerate ≠ output_spec.samplerate
    samplerate_conv_done_once := false
    pre_conv_buf := List.replicate (source_spec.channels * source_spec.samplerate) 0
    post_conv_overflow_buf := { cap := source_spec.channels * source_spec.samplerate, data := [] } }

/-- SourceGroup::mix_to_given_spec.  rateconv is the oracle for the
libsamplerate converter's process() on this call (unused when
samplerate_conv is false).  none models a panic: the scratch-slice bound
exceeding the scratch length, or (in the converter branch) the converter
returning fewer frames than needed, which makes the overflow slice start
past the end. -/
def SourceGroup.mix_to_given_spec (g : SourceGroup) (out_spec : AudioSpec)
    (out_buffer : List ℚ) (rateconv : List ℚ → List ℚ) :
    Option (SourceGroup × List ℚ) :=
  if g.sources.isEmpty then some (g, out_buffer)
  else
    let out_chans := out_spec.channels
    let num_out_buffer_frames := out_buffer.length / out_chans
    let prior_overflow_frames_available := g.post_conv_overflow_buf.occupied / out_chans
    let prior_overflow_frames_drained :=
      min num_out_buffer_frames prior_overflow_frames_available
    let popped := min out_buffer.length g.post_conv_overflow_buf.occupied
    let out1 := zipAdd out_buffer (g.post_conv_overflow_buf.data.take popped)
    let overflow1 := g.post_conv_overflow_buf.popN popped
    let out_spec_frames_needed := num_out_buffer_frames - prior_overflow_frames_drained
    if out_spec_frames_needed = 0 then
      some ({ g with post_conv_overflow_buf := overflow1 }, out1)
    else
      let baseNeeded : ℚ := (out_spec_frames_needed : ℚ) /
        ((out_spec.samplerate : ℚ) / (g.spec.samplerate : ℚ))
      let source_spec_frames_needed : ℚ :=
        if ¬g.samplerate_conv_done_once ∧ g.spec ≠ out_spec then baseNeeded * (3 / 2)
        else baseNeeded
      let done_once2 :=
        if ¬g.samplerate_conv_done_once ∧ g.spec ≠ out_spec then true
        else g.samplerate_conv_done_once
      let source_spec_frames_needed_ceil := (⌈source_spec_frames_needed⌉).toNat
      if source_spec_frames_needed_ceil * g.spec.channels > g.pre_conv_buf.length then
        none
      else
        let mixlen := source_spec_frames_needed_ceil * g.spec.channels
        let mixZeroed := List.replicate mixlen (0 : ℚ)
        let mixed := mixSources g.sources mixZeroed
        let pre2 := mixed.2 ++ g.pre_conv_buf.drop mixlen
        let converted0 := channelConvert g.channel_conv mixed.2
        if g.samplerate_conv then
          let converted_samples := rateconv converted0
          let num_converted_frames := converted_samples.length / out_chans
          if num_converted_frames < out_spec_frames_needed then none
          else
            let overflow_frames := num_converted_frames - out_spec_frames_needed
            let out2 := zipAddFrom out1 (prior_overflow_frames_drained * out_chans)
              converted_samples
            let overflow2 := overflow1.pushSlice
              (converted_samples.drop ((num_converted_frames - overflow_frames) * out_chans))
            some ({ g with
                      sources := mixed.1
                      samplerate_conv_done_once := done_once2
                      pre_conv_buf := pre2
                      post_conv_overflow_buf := overflow2 }, out2)
        else
          let out2 := zipAddFrom out1 (prior_overflow_frames_drained * out_chans) converted0
          some ({ g with
                    sources := mixed.1
                    samplerate_conv_done_once := done_once2
                    pre_conv_buf := pre2
                    post_conv_overflow_buf := overflow1 }, out2)

/-- One call to mix_to_given_spec: the output buffer handed in by the
audio callback and the converter oracle for the call. -/
structure MixCall where
  out_buffer : List ℚ
  rateconv : List ℚ → List ℚ

/-- A finite sequence of mix_to_given_spec calls against a fixed output
spec, propagating the group state; none as soon as any call panics. -/
def runMixCalls (out_spec : AudioSpec) : SourceGroup → List MixCall → Option SourceGroup
  | g, [] => some g
  | g, c :: rest =>
      match g.mix_to_given_spec out_spec c.out_buffer c.rateconv with
      | none => none
      | some (g2, _) => runMixCalls out_spec g2 rest

/-- The contract of one mix_to_given_spec call: the callback's output
buffer holds whole frames (a stated precondition throughout the mixer),
and the opaque rate converter returns whole frames in the output spec (the
source debug-asserts this property of libsamplerate's process()). -/
def MixCallContract (out_chans : Nat) (c : MixCall) : Prop :=
  out_chans ∣ c.out_buffer.length ∧ ∀ l, out_chans ∣ (c.rateconv l).length

/-- Invariant of a source group relative to the output channel count: the
overflow ring holds a whole number of output-spec frames, and its capacity
is itself a whole number of such frames (the capacity is channels times
samplerate of the source spec). -/
def SourceGroupRingInv (out_chans : Nat) (g : SourceGroup) : Prop :=
  out_chans ∣ g.post_conv_overflow_buf.occupied ∧ out_chans ∣ g.post_conv_overflow_buf.cap

instance (out_chans : Nat) (g : SourceGroup) : Decidable (SourceGroupRingInv out_chans g) := by
  unfold SourceGroupRingInv
  infer_instance

/-! ### Concrete instances used to exercise the theorems -/

/-- The note-length reciprocal as a natural number (8 or 16). -/
def NoteLength.reciprocalNat : NoteLength → Nat
  | .Eighth => 8
  | .Sixteenth => 16

/-- A pulled source that has been driven to Complete by the producer
(pull request sent, then Disconnect received) while one sample is still
buffered in its consumer ring. -/
def pulledCompletedNonEmpty : PulledSource :=
  ((PulledSource.from_setup { samplerate := 48000, channels := 1 }
      { cap := 4, data := [1] }).update .empty true).update (.ok .Disconnect) true

/-- A fake source that has streamed its whole two-sample mono buffer. -/
def completedFake : FakeSource :=
  { spec := { samplerate := 48000, channels := 1 }
    buffer := [1, 2]
    stream_state := .Complete
    read_frame_offset := 2 }

/-- A symphonia source at its normal end of stream: reader exhausted,
prebuffer drained. -/
def eofSymphonia : SymphoniaSource :=
  { spec := { samplerate := 48000, channels := 2 }
    stream_state := .Complete
    packets := []
    track_id := 0
    buffer := { cap := 4, data := [] } }

/-- A still-streaming symphonia source whose reader is about to report
end of stream. -/
def streamingSymphonia : SymphoniaSource :=
  { spec := { samplerate := 1, channels := 1 }
    stream_state := .Streaming
    packets := []
    track_id := 0
    buffer := { cap := 1, data := [] } }

/-- A pulled source that completed with an empty consumer ring. -/
def pulledEmptyComplete : PulledSource :=
  { spec := { samplerate := 48000, channels := 1 }
    stream_state := .Complete
    buffer_rx := { cap := 4, data := [] }
    pull_req_pending := false }

/-- A renderer with one active bass-drum sound pinned to generation 0. -/
def demoRenderer : DrumkitSequenceRenderer :=
  { sequence := DrumkitSequence.new { bpm := 120, sigUpper := 4, sigLower := 4, swing := 0 }
      .Sixteenth
    output_samplerate := 44100
    samples := [[(DrumkitLabel.BassDrum, [1, 2])]]
    samples_current_generation := 0
    current_step := some 0
    step_frames_remain := some 1
    active_sounds := [{ label := .BassDrum
                        samples_generation := 0
                        amplitude := 1
                        offset_in_frames := 0
                        num_frames := 1 }]
    mixbuffer := some [0, 0] }

/-- The default drumkit sequence: 120 bpm, 4/4, no swing, sixteenths
(16 empty steps). -/
def defaultSequence : DrumkitSequence :=
  DrumkitSequence.new { bpm := 120, sigUpper := 4, sigLower := 4, swing := 0 } .Sixteenth

/-- A freshly constructed renderer at 1 Hz output samplerate with the
default sequence: samples_per_note is 1/8, so the mixbuffer capacity
(4 * samples_per_note truncated) is zero while the renderer still
eventually writes a nonempty frame slice into it. -/
def lowRateRenderer : DrumkitSequenceRenderer :=
  DrumkitSequenceRenderer.new defaultSequence 1

/-- A tiny source group used to exercise the overflow-ring invariant:
stereo 2 Hz source spec feeding a stereo 4 Hz output through a rate
converter. -/
def demoGroup : SourceGroup :=
  { spec := { samplerate := 2, channels := 2 }
    sources := [Source.fake
      { spec := { samplerate := 2, channels := 2 }
        buffer := []
        stream_state := .Streaming
        read_frame_offset := 0 }]
    channel_conv := none
    samplerate_conv := true
    samplerate_conv_done_once := false
    pre_conv_buf := List.replicate 4 0
    post_conv_overflow_buf := { cap := 4, data := [] } }

/-- One demo mix call against demoGroup: a single stereo output frame and
a converter oracle that always returns one stereo frame. -/
def demoCall : MixCall :=
  { out_buffer := [0, 0]
    rateconv := fun _ => [0, 0] }

/-- The demo group after running the demo call. -/
def demoGroupAfter : SourceGroup :=
  (runMixCalls { samplerate := 4, channels := 2 } demoGroup [demoCall]).getD demoGroup

/-- A constructor-made source group whose overflow ring capacity is odd:
SourceGroup::new for a mono 3 Hz source feeding a stereo 6 Hz output
allocates the ring with capacity channels * samplerate = 3 samples, which
is not a whole number of stereo output frames; one streaming fake source
has been added. -/
def oddCapGroup : SourceGroup :=
  { SourceGroup.new { samplerate := 3, channels := 1 } { samplerate := 6, channels := 2 } with
      sources := [Source.fake
        { spec := { samplerate := 3, channels := 1 }
          buffer := []
          stream_state := .Streaming
          read_frame_offset := 0 }] }

/-- A mix call against oddCapGroup: one stereo output frame (a whole
number of output-spec frames) and a converter oracle returning three
stereo frames (whole frames, as libsamplerate does), more than the one
frame needed, so two surplus frames head for the three-sample ring. -/
def oddCapCall : MixCall :=
  { out_buffer := [0, 0]
    rateconv := fun _ => [0, 0, 0, 0, 0, 0] }

/-! ## Theorems -/

section MainTheorems

attribute [local semireducible] Rat.add Rat.mul Rat.sub Rat.inv

/-- C5: for every sequence, step index below the length and samplerate,
the step length equals samples_per_note at that rate skewed by
(1 + swing) on even steps and (1 - swing) on odd steps; the source's
normalization to 48000 Hz and rescaling by rate/48000 yields exactly this
value. -/
theorem C5_step_length_swing_skew (seq : DrumkitSequence) (n rate : Nat)
    (h : n < seq.len) :
    ∃ info, seq.step n = some info ∧
      info.length_in_samples rate =
        seq.timespec.samples_per_note rate seq.step_base_length *
          (1 + (if n % 2 = 0 then (1 : ℚ) else -1) * seq.timespec.swing) := by
  have h2 : n < seq.steps.length := h
  unfold DrumkitSequence.step
  rw [List.getElem?_eq_getElem h2]
  refine ⟨_, rfl, ?_⟩
  unfold StepInfo.length_in_samples TimeSpec.samples_per_note TimeSpec.seconds_per_note
    TimeSpec.seconds_per_beat TimeSpec.beats_per_second TimeSpec.notes_per_beat
  ring

/-- Witness for C5 at a concrete input: the default sequence with swing
1/2 at 44100 Hz has step 0 of length 8268.75 frames. -/
theorem C5_step_length_swing_skew_witness :
    0 < (DrumkitSequence.new { bpm := 120, sigUpper := 4, sigLower := 4, swing := 1/2 }
        .Sixteenth).len ∧
    ∃ info, (DrumkitSequence.new { bpm := 120, sigUpper := 4, sigLower := 4, swing := 1/2 }
        .Sixteenth).step 0 = some info ∧
      info.length_in_samples 44100 =
        (DrumkitSequence.new { bpm := 120, sigUpper := 4, sigLower := 4, swing := 1/2 }
            .Sixteenth).timespec.samples_per_note 44100
          (DrumkitSequence.new { bpm := 120, sigUpper := 4, sigLower := 4, swing := 1/2 }
            .Sixteenth).step_base_length *
          (1 + (if 0 % 2 = 0 then (1 : ℚ) else -1) *
            (DrumkitSequence.new { bpm := 120, sigUpper := 4, sigLower := 4, swing := 1/2 }
              .Sixteenth).timespec.swing) := by
  refine ⟨by decide, ?_⟩
  exact C5_step_length_swing_skew _ 0 44100 (by decide)

/-- C6 counterexample: at 48000 Hz the drum render thread's ring holds
6000 stereo frames, not 48000 / 4 = 12000. -/
theorem C6_counterexample :
    dkrtRingCapacityStereoFrames 48000 ≠ 48000 / 4 := by decide

/-- C6 amended: the ring shared with the mixer is allocated with
(samplerate / 8) * 2 f32 samples, i.e. samplerate / 8 stereo frames
(samplerate / 4 samples only when 8 divides the samplerate). -/
theorem C6_ring_capacity_frames (rate : Nat) :
    dkrtRingCapacityStereoFrames rate = rate / 8 ∧ dkrtBufsize rate = rate / 8 * 2 := by
  constructor
  · unfold dkrtRingCapacityStereoFrames dkrtBufsize
    exact Nat.mul_div_cancel (rate / 8) (by norm_num)
  · rfl

/-- C7 counterexample: for a 7/3 time signature with sixteenth-note steps
the constructed length is 35 (the source truncates 16/3 to 5 before
multiplying by 7), which differs from upper * (reciprocal / lower)
= 7 * 16 / 3 read as exact division. -/
theorem C7_counterexample :
    ((DrumkitSequence.new { bpm := 120, sigUpper := 7, sigLower := 3, swing := 0 }
        .Sixteenth).len : ℚ) ≠ 7 * ((16 : ℚ) / 3) := by decide

/-- C7 amended: the constructed step count is upper times the truncated
quotient of the step-base reciprocal by lower; in particular 4/4 with
sixteenths gives 16 steps, 3/4 gives 12 and 7/8 gives 14. -/
theorem C7_new_len :
    (∀ (ts : TimeSpec) (base : NoteLength),
      (DrumkitSequence.new ts base).len = ts.sigUpper * (base.reciprocalNat / ts.sigLower)) ∧
    (DrumkitSequence.new { bpm := 120, sigUpper := 4, sigLower := 4, swing := 0 }
        .Sixteenth).len = 16 ∧
    (DrumkitSequence.new { bpm := 140, sigUpper := 3, sigLower := 4, swing := 0 }
        .Sixteenth).len = 12 ∧
    (DrumkitSequence.new { bpm := 120, sigUpper := 7, sigLower := 8, swing := 0 }
        .Sixteenth).len = 14 := by
  refine ⟨fun ts base => ?_, by decide, by decide, by decide⟩
  show (List.replicate (DrumkitSequence.newLen ts base) []).length = _
  rw [List.length_replicate]
  unfold DrumkitSequence.newLen
  have hq : base.reciprocal = ((base.reciprocalNat : ℚ)) := by
    cases base <;> norm_num [NoteLength.reciprocal, NoteLength.reciprocalNat]
  rw [hq, Int.floor_toNat, Nat.floor_div_nat, Nat.floor_natCast]

/-- C8: setting a trigger twice for the same label at a valid step leaves
exactly one trigger with that label, carrying the second amplitude. -/
theorem C8_set_trigger_replaces (seq : DrumkitSequence) (n : Nat)
    (label : DrumkitLabel) (a1 a2 : ℚ) (h : n < seq.len) :
    ∃ v, ((seq.set_step_trigger n label a1).set_step_trigger n label a2).steps[n]? = some v ∧
      v.filter (fun t => t.label = label) = [{ label := label, amplitude := a2 }] := by
  have h2 : n < seq.steps.length := h
  have hstep : ∀ (s : DrumkitSequence) (amp : ℚ) (h3 : n < s.steps.length),
      s.set_step_trigger n label amp =
        { s with
            steps := (s.steps.set n ((s.steps.get ⟨n, h3⟩).filter
              (fun t => t.label ≠ label) ++ [{ label := label, amplitude := amp }])) } := by
    intro s amp h3
    unfold DrumkitSequence.set_step_trigger
    rw [List.getElem?_eq_getElem h3]
    rfl
  rw [hstep seq a1 h2]
  rw [hstep _ a2 (by simpa using h2)]
  refine ⟨_, List.getElem?_set_eq_of_lt _ (by simpa using h2), ?_⟩
  have hset : (seq.steps.set n
      ((seq.steps.get ⟨n, h2⟩).filter (fun t => t.label ≠ label) ++
        [{ label := label, amplitude := a1 }])).get ⟨n, by simpa using h2⟩ =
      (seq.steps.get ⟨n, h2⟩).filter (fun t => t.label ≠ label) ++
        [{ label := label, amplitude := a1 }] := by
    simp [List.get_eq_getElem, List.getElem_set_self]
  rw [hset]
  have hfalse : ∀ t : Trigger,
      (decide (t.label = label) && decide ¬(t.label = label)) = false := by
    intro t
    by_cases ht : t.label = label <;> simp [ht]
  simp [List.filter_append, List.filter_filter, hfalse]

/-- C8 witness: set bass at step 3 with amplitude 1/2, then 9/10; step 3
holds exactly one bass trigger, with amplitude 9/10. -/
theorem C8_set_trigger_replaces_witness :
    3 < defaultSequence.len ∧
    ∃ v, ((defaultSequence.set_step_trigger 3 .BassDrum (1/2)).set_step_trigger
        3 .BassDrum (9/10)).steps[3]? = some v ∧
      v.filter (fun t => t.label = DrumkitLabel.BassDrum) =
        [{ label := .BassDrum, amplitude := 9/10 }] :=
  ⟨by decide, C8_set_trigger_replaces defaultSequence 3 .BassDrum (1/2) (9/10) (by decide)⟩

/-- C10: every out-of-range edit (clear_step, set_step_trigger,
unset_step_trigger at an index at or past the length) leaves the sequence
unchanged. -/
theorem C10_out_of_range_edits_ignored (seq : DrumkitSequence) (n : Nat)
    (label : DrumkitLabel) (amp : ℚ) (h : seq.len ≤ n) :
    seq.clear_step n = seq ∧ seq.set_step_trigger n label amp = seq ∧
      seq.unset_step_trigger n label = seq := by
  have h2 : seq.steps.length ≤ n := h
  have hnone : seq.steps[n]? = none := List.getElem?_eq_none h2
  refine ⟨?_, ?_, ?_⟩
  · unfold DrumkitSequence.clear_step
    rw [hnone]
  · unfold DrumkitSequence.set_step_trigger
    rw [hnone]
  · unfold DrumkitSequence.unset_step_trigger
    rw [hnone]

/-- C10 witness: editing step 16 of the default 16-step sequence is a
no-op. -/
theorem C10_out_of_range_edits_ignored_witness :
    defaultSequence.len ≤ 16 ∧
      (defaultSequence.clear_step 16 = defaultSequence ∧
        defaultSequence.set_step_trigger 16 .BassDrum 1 = defaultSequence ∧
          defaultSequence.unset_step_trigger 16 .BassDrum = defaultSequence) :=
  ⟨by decide, C10_out_of_range_edits_ignored defaultSequence 16 .BassDrum 1 (by decide)⟩

/-- C2: the render call is not total: a renderer over the default
sequence (16 steps) at an output samplerate of 1 Hz allocates a mixbuffer
of capacity 4 * samples_per_note = 0 samples (truncated), yet after eight
step advances step_frames_remain reaches 1 and the loop slices
mixbuffer[..2], a slice-out-of-range panic, instead of returning
(buffer.len, events). -/
theorem C2_render_panics_on_undersized_mixbuffer :
    lowRateRenderer.render [] [0, 0] 64 = .panic := by decide

/-- doubled is the flat map duplicating each sample. -/
theorem doubled_eq_flatMap (l : List ℚ) : doubled l = l.flatMap (fun a => [a, a]) := by
  unfold doubled zipSelf
  rw [List.flatMap_map]

/-- Duplicating each element of a constant run doubles its length. -/
theorem replicate_flatMap_pair (m : Nat) (a : ℚ) :
    (List.replicate m a).flatMap (fun b => [b, b]) = List.replicate (2 * m) a := by
  induction m with
  | zero => simp
  | succ k ih =>
      rw [List.replicate_succ, List.flatMap_cons, ih]
      have hc : 2 * (k + 1) = 2 * k + 1 + 1 := by ring
      rw [hc, List.replicate_succ, List.replicate_succ]
      rfl

/-- Iterating doubled k times repeats every sample 2 ^ k times. -/
theorem doubled_iterate (k : Nat) (l : List ℚ) :
    doubled^[k] l = l.flatMap (fun a => List.replicate (2 ^ k) a) := by
  induction k with
  | zero =>
      simp only [Function.iterate_zero, id_eq, pow_zero, List.replicate_one]
      induction l with
      | nil => rfl
      | cons a rest ih => rw [List.flatMap_cons, ← ih]; rfl
  | succ k ih =>
      rw [Function.iterate_succ_apply', ih, doubled_eq_flatMap, List.flatMap_assoc]
      have hstep : ∀ a : ℚ,
          (List.replicate (2 ^ k) a).flatMap (fun b => [b, b]) =
            List.replicate (2 ^ (k + 1)) a := by
        intro a
        rw [replicate_flatMap_pair]
        congr 1
        rw [pow_succ]
        ring
      simp only [hstep]

/-- Length of a flat map by constant-length runs. -/
theorem flatMap_replicate_length (l : List ℚ) (m : Nat) :
    (l.flatMap (fun a => List.replicate m a)).length = l.length * m := by
  induction l with
  | nil => simp
  | cons a rest ih =>
      rw [List.flatMap_cons, List.length_append, ih, List.length_replicate,
        List.length_cons]
      ring

/-- dropChannelsAux distributes over append, shifting the enumeration
offset of the right part by the length of the left part. -/
theorem dropChannelsAux_append (nstart cf ct : Nat) (a b : List ℚ) :
    dropChannelsAux nstart cf ct (a ++ b) =
      dropChannelsAux nstart cf ct a ++ dropChannelsAux (nstart + a.length) cf ct b := by
  unfold dropChannelsAux
  rw [List.enumFrom_append, List.filter_append, List.map_append]

/-- Incrementing an index that is not about to wrap keeps residues in
step. -/
theorem mod_succ_of_lt (n f j : Nat) (hj : n % f = j) (hlt : j + 1 < f) :
    (n + 1) % f = j + 1 := by
  have hd := Nat.div_add_mod n f
  have hrw : n + 1 = f * (n / f) + (j + 1) := by omega
  rw [hrw, Nat.mul_add_mod]
  exact Nat.mod_eq_of_lt hlt

/-- Length of dropChannelsAux over a run that stays inside one block of
cf indices, in terms of the residue at which the run starts. -/
theorem dropChannelsAux_length_within (cf ct : Nat) (hft : ct < cf) :
    ∀ (l : List ℚ) (nstart j : Nat), nstart % cf = j → l.length + j ≤ cf →
      (dropChannelsAux nstart cf ct l).length =
        min ct (j + l.length) - min ct j := by
  intro l
  induction l with
  | nil =>
      intro nstart j hmod hlen
      simp [dropChannelsAux]
  | cons a rest ih =>
      intro nstart j hmod hlen
      simp only [List.length_cons] at hlen
      have hres : dropChannelsAux nstart cf ct (a :: rest) =
          (if nstart % cf < ct then [a] else []) ++ dropChannelsAux (nstart + 1) cf ct rest := by
        unfold dropChannelsAux
        rw [List.enumFrom_cons, List.filter_cons]
        by_cases hc : nstart % cf < ct
        · simp [hc]
        · simp [hc]
      rw [hres, List.length_append, hmod]
      by_cases hwrap : j + 1 < cf
      · have htail := ih (nstart + 1) (j + 1) (mod_succ_of_lt nstart cf j hmod hwrap)
          (by omega)
        rw [htail]
        by_cases hc : j < ct <;> simp [hc, List.length_cons] <;> omega
      · have hjf : j < cf := by rw [← hmod]; exact Nat.mod_lt _ (by omega)
        have hrest : rest = [] := List.length_eq_zero.mp (by omega)
        subst hrest
        have hc : ¬(j < ct) := by omega
        simp only [hc, if_false, List.length_nil, dropChannelsAux, List.enumFrom_nil,
          List.filter_nil, List.map_nil, List.length_cons]
        omega

/-- Over one whole block of cf samples starting at a block boundary,
dropChannelsAux keeps exactly ct samples. -/
theorem dropChannelsAux_length_block (cf ct : Nat) (hft : ct < cf) (l : List ℚ)
    (nstart : Nat) (hmod : nstart % cf = 0) (hlen : l.length = cf) :
    (dropChannelsAux nstart cf ct l).length = ct := by
  rw [dropChannelsAux_length_within cf ct hft l nstart 0 hmod (by omega)]
  omega

/-- Length of dropChannelsAux on a whole number of blocks. -/
theorem dropChannelsAux_length_blocks (cf ct : Nat) (hft : ct < cf) :
    ∀ (numBlocks : Nat) (l : List ℚ) (nstart : Nat), nstart % cf = 0 →
      l.length = numBlocks * cf →
      (dropChannelsAux nstart cf ct l).length = numBlocks * ct := by
  intro numBlocks
  induction numBlocks with
  | zero =>
      intro l nstart hmod hlen
      have hnil : l = [] := List.length_eq_zero.mp (by omega)
      subst hnil
      simp [dropChannelsAux]
  | succ m ih =>
      intro l nstart hmod hlen
      have hsplit : l = l.take cf ++ l.drop cf := (List.take_append_drop cf l).symm
      have hcfle : cf ≤ l.length := by
        rw [hlen]
        exact Nat.le_mul_of_pos_left cf (Nat.succ_pos m)
      rw [hsplit, dropChannelsAux_append, List.length_append]
      have htakelen : (l.take cf).length = cf := by
        rw [List.length_take]
        exact Nat.min_eq_left hcfle
      rw [dropChannelsAux_length_block cf ct hft _ nstart hmod htakelen]
      have hdroplen : (l.drop cf).length = m * cf := by
        rw [List.length_drop, hlen, Nat.succ_mul, Nat.add_sub_cancel]
      have hmod2 : (nstart + cf) % cf = 0 := by
        rw [Nat.add_mod_right]
        exact hmod
      rw [htakelen, ih (l.drop cf) (nstart + cf) hmod2 hdroplen]
      ring

/-- C9: iterating doubled k times over a buffer of length L produces a
buffer of length L * 2 ^ k in which every input sample is repeated 2 ^ k
times consecutively; and for cfrom > cto, drop_channels on an input of
length L * cfrom keeps exactly the samples whose index modulo cfrom is
below cto, yielding an output of length L * cto. -/
theorem C9_doubled_and_drop_channels :
    (∀ (l : List ℚ) (k : Nat),
      doubled^[k] l = l.flatMap (fun a => List.replicate (2 ^ k) a) ∧
        (doubled^[k] l).length = l.length * 2 ^ k) ∧
    (∀ (l : List ℚ) (numBlocks cfrom cto : Nat), cfrom > cto →
      l.length = numBlocks * cfrom →
      drop_channels l cfrom cto =
        ((l.enumFrom 0).filter (fun p => p.1 % cfrom < cto)).map Prod.snd ∧
        (drop_channels l cfrom cto).length = numBlocks * cto) := by
  constructor
  · intro l k
    refine ⟨doubled_iterate k l, ?_⟩
    rw [doubled_iterate k l, flatMap_replicate_length]
  · intro l numBlocks cfrom cto hft hlen
    exact ⟨rfl, dropChannelsAux_length_blocks cfrom cto hft numBlocks l 0 (by simp) hlen⟩

/-- Adding an empty source slice changes nothing. -/
theorem zipAdd_nil (out : List ℚ) : zipAdd out [] = out := by
  cases out <;> rfl

/-- The symphonia decode loop with nothing left to write returns its
inputs unchanged and does not complete the stream. -/
theorem symphoniaMixLoop_zero (ch tid : Nat) (packets : List Packet) (out : List ℚ)
    (ofs : Nat) (buffer : Ring) :
    symphoniaMixLoop ch tid packets out ofs 0 buffer =
      { packets := packets, out := out, buffer := buffer, completed := false } := by
  cases packets <;> rfl

/-- The symphonia decode loop over an exhausted reader touches neither the
output nor the ring. -/
theorem symphoniaMixLoop_nil (ch tid : Nat) (out : List ℚ) (ofs needed : Nat)
    (buffer : Ring) :
    (symphoniaMixLoop ch tid [] out ofs needed buffer).out = out ∧
      (symphoniaMixLoop ch tid [] out ofs needed buffer).buffer = buffer := by
  cases needed <;> exact ⟨rfl, rfl⟩

/-- Whenever the symphonia decode loop completes the stream, it has not
pushed anything into the prebuffer ring: a push only happens on a packet
that fully satisfies the request, after which the loop returns without
completing. -/
theorem symphoniaMixLoop_completed_buffer (ch tid : Nat) :
    ∀ (packets : List Packet) (out : List ℚ) (ofs needed : Nat) (buffer : Ring),
      (symphoniaMixLoop ch tid packets out ofs needed buffer).completed = true →
        (symphoniaMixLoop ch tid packets out ofs needed buffer).buffer = buffer := by
  intro packets
  induction packets with
  | nil =>
      intro out ofs needed buffer _
      cases needed <;> rfl
  | cons p rest ih =>
      intro out ofs needed buffer h
      cases needed with
      | zero =>
          rw [symphoniaMixLoop_zero]
      | succ n =>
          by_cases htr : p.track_id ≠ tid
          · have hred : symphoniaMixLoop ch tid (p :: rest) out ofs (n + 1) buffer =
                symphoniaMixLoop ch tid rest out ofs (n + 1) buffer := by
              simp only [symphoniaMixLoop]
              rw [if_pos htr]
            rw [hred] at h ⊢
            exact ih out ofs (n + 1) buffer h
          · cases hdec : p.decoded with
            | none =>
                have hred : symphoniaMixLoop ch tid (p :: rest) out ofs (n + 1) buffer =
                    { packets := rest, out := out, buffer := buffer, completed := true } := by
                  simp only [symphoniaMixLoop]
                  rw [if_neg htr, hdec]
                rw [hred]
            | some data =>
                have hred : symphoniaMixLoop ch tid (p :: rest) out ofs (n + 1) buffer =
                    symphoniaMixLoop ch tid rest (zipAddFrom out (ofs * ch) data)
                      (ofs + min (n + 1) (data.length / ch))
                      (n + 1 - min (n + 1) (data.length / ch))
                      (if data.length / ch - min (n + 1) (data.length / ch) > 0 then
                        buffer.pushSlice (data.drop (min (n + 1) (data.length / ch) * ch))
                      else buffer) := by
                  simp only [symphoniaMixLoop]
                  rw [if_neg htr, hdec]
                rw [hred] at h ⊢
                by_cases hsur : data.length / ch - min (n + 1) (data.length / ch) > 0
                · have hmixed : min (n + 1) (data.length / ch) = n + 1 := by omega
                  rw [hmixed] at h ⊢
                  rw [Nat.sub_self] at h ⊢
                  rw [symphoniaMixLoop_zero] at h
                  exact absurd h (by simp)
                · rw [if_neg hsur] at h ⊢
                  exact ih _ _ _ buffer h

/-- A fake-source mix never leaves Complete. -/
theorem fake_mix_state_mono (s : FakeSource) (out : List ℚ)
    (h : s.stream_state = .Complete) :
    (s.mix_to_same_spec out).1.stream_state = .Complete := by
  unfold FakeSource.mix_to_same_spec
  dsimp only
  split
  · rfl
  · exact h

/-- A symphonia-source mix never leaves Complete. -/
theorem symphonia_mix_state_mono (s : SymphoniaSource) (out : List ℚ)
    (h : s.stream_state = .Complete) :
    (s.mix_to_same_spec out).1.stream_state = .Complete := by
  unfold SymphoniaSource.mix_to_same_spec
  dsimp only
  split
  · rfl
  · exact h

/-- A pulled-source mix does not touch the stream state at all. -/
theorem pulled_mix_state_eq (s : PulledSource) (out : List ℚ) :
    (s.mix_to_same_spec out).1.stream_state = s.stream_state := rfl

/-- A pulled-source update never leaves Complete. -/
theorem pulled_update_state_mono (s : PulledSource) (recv : TryRecvResult)
    (send_ok : Bool) (h : s.stream_state = .Complete) :
    (s.update recv send_ok).stream_state = .Complete := by
  unfold PulledSource.update
  rw [h]
  exact h

/-- Mixing a completed fake source adds nothing to the output. -/
theorem fake_mix_noop (s : FakeSource) (out : List ℚ) (hinv : FakeSourceInv s)
    (h : s.stream_state = .Complete) :
    (s.mix_to_same_spec out).2 = out := by
  obtain ⟨hch, hdiv, himp⟩ := hinv
  have hdrop : s.buffer.drop (s.read_frame_offset * s.spec.channels) = [] :=
    List.drop_eq_nil_of_le (himp h)
  unfold FakeSource.mix_to_same_spec
  dsimp only
  rw [hdrop, zipAdd_nil]

/-- A fake-source mix preserves the fake-source invariant. -/
theorem fake_mix_inv (s : FakeSource) (out : List ℚ) (hinv : FakeSourceInv s) :
    FakeSourceInv (s.mix_to_same_spec out).1 := by
  obtain ⟨hch, hdiv, himp⟩ := hinv
  refine ⟨hch, hdiv, ?_⟩
  intro hC
  unfold FakeSource.mix_to_same_spec at hC ⊢
  dsimp only at hC ⊢
  split at hC
  next heq =>
    rw [heq]
    exact le_of_eq (Nat.div_mul_cancel (Nat.dvd_of_mod_eq_zero hdiv)).symm
  next =>
    calc s.buffer.length ≤ s.read_frame_offset * s.spec.channels := himp hC
      _ ≤ (s.read_frame_offset +
            min (out.length / s.spec.channels)
              ((s.buffer.drop (s.read_frame_offset * s.spec.channels)).length /
                s.spec.channels)) * s.spec.channels :=
        Nat.mul_le_mul_right _ (Nat.le_add_right _ _)

/-- Mixing a symphonia source whose reader is exhausted and whose
prebuffer ring is empty (the normal end-of-stream situation once the
stream completed) adds nothing to the output. -/
theorem symphonia_mix_noop (s : SymphoniaSource) (out : List ℚ)
    (hp : s.packets = []) (hb : s.buffer.data = []) :
    (s.mix_to_same_spec out).2 = out := by
  unfold SymphoniaSource.mix_to_same_spec
  dsimp only
  rw [hp, hb, List.take_nil, zipAdd_nil]
  exact (symphoniaMixLoop_nil _ _ _ _ _ _).1

/-- Mixing a pulled source whose consumer ring is empty adds nothing to
the output. -/
theorem pulled_mix_noop (s : PulledSource) (out : List ℚ)
    (hb : s.buffer_rx.data = []) :
    (s.mix_to_same_spec out).2 = out := by
  unfold PulledSource.mix_to_same_spec
  dsimp only
  rw [hb, List.take_nil, zipAdd_nil]

/-- When a mix call completes a streaming symphonia source, it leaves the
prebuffer ring empty: completion requires the request not to have been
satisfied from the ring, so the ring was fully drained, and the loop never
pushes on a completing path. -/
theorem symphonia_mix_complete_ring_empty (s : SymphoniaSource) (out : List ℚ)
    (hocc : s.spec.channels ∣ s.buffer.occupied)
    (hstr : s.stream_state = .Streaming)
    (hC : (s.mix_to_same_spec out).1.stream_state = .Complete) :
    (s.mix_to_same_spec out).1.buffer.data = [] := by
  unfold SymphoniaSource.mix_to_same_spec at hC ⊢
  dsimp only at hC ⊢
  by_cases hcompl : (symphoniaMixLoop s.spec.channels s.track_id s.packets
      (zipAdd out (s.buffer.data.take (min out.length s.buffer.occupied)))
      (min (out.length / s.spec.channels) (s.buffer.occupied / s.spec.channels))
      (out.length / s.spec.channels -
        min (out.length / s.spec.channels) (s.buffer.occupied / s.spec.channels))
      (s.buffer.popN (min out.length s.buffer.occupied))).completed = true
  case neg =>
    rw [if_neg hcompl] at hC
    rw [hstr] at hC
    exact absurd hC (by simp)
  case pos =>
    rw [symphoniaMixLoop_completed_buffer _ _ _ _ _ _ _ hcompl]
    have hneed : out.length / s.spec.channels -
        min (out.length / s.spec.channels) (s.buffer.occupied / s.spec.channels) ≠ 0 := by
      intro hz
      rw [hz, symphoniaMixLoop_zero] at hcompl
      exact absurd hcompl (by simp)
    have havail : s.buffer.occupied / s.spec.channels < out.length / s.spec.channels := by
      omega
    have hoccle : s.buffer.occupied ≤ out.length := by
      have h1 : s.buffer.occupied / s.spec.channels * s.spec.channels = s.buffer.occupied :=
        Nat.div_mul_cancel hocc
      have h2 : (s.buffer.occupied / s.spec.channels + 1) * s.spec.channels ≤
          out.length / s.spec.channels * s.spec.channels :=
        Nat.mul_le_mul_right _ havail
      have h3 : out.length / s.spec.channels * s.spec.channels ≤ out.length :=
        Nat.div_mul_le_self _ _
      calc s.buffer.occupied = s.buffer.occupied / s.spec.channels * s.spec.channels :=
            h1.symm
        _ ≤ (s.buffer.occupied / s.spec.channels + 1) * s.spec.channels := by
            exact Nat.mul_le_mul_right _ (Nat.le_succ _)
        _ ≤ out.length / s.spec.channels * s.spec.channels := h2
        _ ≤ out.length := h3
    show (s.buffer.popN (min out.length s.buffer.occupied)).data = []
    unfold Ring.popN
    dsimp only
    apply List.drop_eq_nil_of_le
    rw [Nat.min_eq_right hoccle]
    exact le_rfl

/-- C1 counterexample: a pulled source driven to Complete by the producer
(a pull request is sent while the ring is under half full, then the
producer answers Disconnect) still holds one sample in its consumer ring;
mix_to_same_spec pops and adds that sample regardless of the stream
state, so the call on the Complete source changes the output buffer. -/
theorem C1_counterexample :
    pulledCompletedNonEmpty.stream_state = .Complete ∧
      ((Source.pulled pulledCompletedNonEmpty).mix_to_same_spec [0]).2 ≠ [0] := by
  decide

/-- C1 (amended): for every source variant the stream state transitions
only from Streaming to Complete: neither mix_to_same_spec nor (for the
pulled variant) update ever leaves Complete.  Once Complete,
mix_to_same_spec leaves the output buffer unchanged for FakeSource (under
its frame invariants, which mixing preserves), and for SymphoniaSource
and PulledSource under the additional condition that no buffered input
remains: an exhausted reader and a drained prebuffer for symphonia, and
an empty consumer ring for pulled, whose contents are popped into the
output regardless of the stream state.  The last conjunct shows the
symphonia condition holds whenever a stream completes normally: the
completing mix call leaves the prebuffer empty. -/
theorem C1_state_monotone_and_complete_mix_noop :
    (∀ (src : Source) (out : List ℚ), src.stream_state = .Complete →
      (src.mix_to_same_spec out).1.stream_state = .Complete) ∧
    (∀ (p : PulledSource) (recv : TryRecvResult) (send_ok : Bool),
      p.stream_state = .Complete → (p.update recv send_ok).stream_state = .Complete) ∧
    (∀ (s : FakeSource) (out : List ℚ), FakeSourceInv s →
      (s.stream_state = .Complete → (s.mix_to_same_spec out).2 = out) ∧
        FakeSourceInv (s.mix_to_same_spec out).1) ∧
    (∀ (s : SymphoniaSource) (out : List ℚ), s.packets = [] → s.buffer.data = [] →
      (s.mix_to_same_spec out).2 = out) ∧
    (∀ (s : PulledSource) (out : List ℚ), s.buffer_rx.data = [] →
      (s.mix_to_same_spec out).2 = out) ∧
    (∀ (s : SymphoniaSource) (out : List ℚ), s.spec.channels ∣ s.buffer.occupied →
      s.stream_state = .Streaming → (s.mix_to_same_spec out).1.stream_state = .Complete →
      (s.mix_to_same_spec out).1.buffer.data = []) := by
  refine ⟨?_, pulled_update_state_mono, ?_, symphonia_mix_noop, pulled_mix_noop,
    symphonia_mix_complete_ring_empty⟩
  · intro src out h
    cases src with
    | fake s => exact fake_mix_state_mono s out h
    | symphonia s => exact symphonia_mix_state_mono s out h
    | pulled s => exact h
  · intro s out hinv
    exact ⟨fun h => fake_mix_noop s out hinv h, fake_mix_inv s out hinv⟩

/-- C1 amended witness, exercising every conjunct at concrete sources:
mixing keeps Complete, the no-ops hold on the exhausted instances, update
keeps Complete, and a completing mix drains the symphonia prebuffer. -/
theorem C1_state_monotone_and_complete_mix_noop_witness :
    ((Source.fake completedFake).mix_to_same_spec [5]).1.stream_state = .Complete ∧
    (pulledEmptyComplete.update .empty true).stream_state = .Complete ∧
    (completedFake.mix_to_same_spec [5]).2 = [5] ∧
    (eofSymphonia.mix_to_same_spec [0, 0]).2 = [0, 0] ∧
    (pulledEmptyComplete.mix_to_same_spec [3]).2 = [3] ∧
    (streamingSymphonia.mix_to_same_spec [0]).1.buffer.data = [] := by
  refine ⟨C1_state_monotone_and_complete_mix_noop.1 (Source.fake completedFake) [5]
      (by decide),
    C1_state_monotone_and_complete_mix_noop.2.1 pulledEmptyComplete .empty true (by decide),
    (C1_state_monotone_and_complete_mix_noop.2.2.1 completedFake [5]
      (by decide)).1 (by decide),
    C1_state_monotone_and_complete_mix_noop.2.2.2.1 eofSymphonia [0, 0] (by decide)
      (by decide),
    C1_state_monotone_and_complete_mix_noop.2.2.2.2.1 pulledEmptyComplete [3] (by decide),
    C1_state_monotone_and_complete_mix_noop.2.2.2.2.2 streamingSymphonia [0] (by decide)
      (by decide) (by decide)⟩

/-- Pinned-sound preservation composes. -/
theorem soundsPinnedPreserved_trans {a b c : DrumkitSequenceRenderer}
    (hab : SoundsPinnedPreserved a b) (hbc : SoundsPinnedPreserved b c) :
    SoundsPinnedPreserved a c := by
  obtain ⟨l1, p1⟩ := hab
  obtain ⟨l2, p2⟩ := hbc
  refine ⟨l2.trans l1, ?_⟩
  intro i h1 h2
  have hb : i < b.active_sounds.length := by omega
  obtain ⟨q1, q2, q3, q4, q5⟩ := p1 i h1 hb
  obtain ⟨w1, w2, w3, w4, w5⟩ := p2 i hb h2
  exact ⟨w1.trans q1, w2.trans q2, w3.trans q3, w4.trans q4, w5.trans q5⟩

/-- A nonempty active-sound list has a minimum pinned generation. -/
theorem minPinnedGeneration_isSome (a : ActiveSound) (rest : List ActiveSound) :
    ∃ m, minPinnedGeneration (a :: rest) = some m := by
  unfold minPinnedGeneration
  cases minPinnedGeneration rest <;> exact ⟨_, rfl⟩

/-- The minimum pinned generation bounds every pinned generation. -/
theorem minPinnedGeneration_le :
    ∀ (l : List ActiveSound) (m : Nat), minPinnedGeneration l = some m →
      ∀ s ∈ l, m ≤ s.samples_generation := by
  intro l
  induction l with
  | nil => intro m hm s hs; cases hs
  | cons a rest ih =>
      intro m hm s hs
      unfold minPinnedGeneration at hm
      cases hrest : minPinnedGeneration rest with
      | none =>
          rw [hrest] at hm
          simp only [Option.some.injEq] at hm
          rcases List.mem_cons.mp hs with hs1 | hs1
          · subst hs1
            omega
          · cases rest with
            | nil => cases hs1
            | cons b tl =>
                obtain ⟨m2, hm2⟩ := minPinnedGeneration_isSome b tl
                rw [hm2] at hrest
                cases hrest
      | some m2 =>
          rw [hrest] at hm
          simp only [Option.some.injEq] at hm
          rcases List.mem_cons.mp hs with hs1 | hs1
          · subst hs1
            omega
          · have := ih m2 hrest s hs1
            omega

/-- Closed form of the retain_mut ingest pass: the Ready generations are
appended in order and the current generation index advances by their
count; nothing else changes. -/
theorem pushReadyLoaders_eq :
    ∀ (polls : List ThreadedPromiseState) (r : DrumkitSequenceRenderer),
      pushReadyLoaders r polls =
        { r with
            samples := r.samples ++ readyTables polls
            samples_current_generation :=
              r.samples_current_generation + (readyTables polls).length } := by
  intro polls
  induction polls with
  | nil => intro r; simp [pushReadyLoaders, readyTables]
  | cons p rest ih =>
      intro r
      cases p with
      | Pending => simpa [pushReadyLoaders, readyTables] using ih r
      | Failed => simpa [pushReadyLoaders, readyTables] using ih r
      | Ready t =>
          show pushReadyLoaders _ rest = _
          rw [ih]
          simp [readyTables, List.append_assoc]
          omega

/-- Ingesting loader results preserves every active sound's pinned
table: the new generations are appended after the existing ones. -/
theorem spp_pushReady (r : DrumkitSequenceRenderer) (polls : List ThreadedPromiseState)
    (hgen : ∀ s ∈ r.active_sounds, s.samples_generation ≤ r.samples_current_generation)
    (hcur : r.samples_current_generation < r.samples.length) :
    SoundsPinnedPreserved r (pushReadyLoaders r polls) := by
  rw [pushReadyLoaders_eq]
  refine ⟨rfl, ?_⟩
  intro i h1 h2
  refine ⟨rfl, rfl, rfl, rfl, ?_⟩
  have hmem : r.active_sounds.get ⟨i, h1⟩ ∈ r.active_sounds :=
    List.get_mem r.active_sounds i h1
  have hlt : (r.active_sounds.get ⟨i, h1⟩).samples_generation < r.samples.length :=
    lt_of_le_of_lt (hgen _ hmem) hcur
  rw [List.getElem?_append, if_pos hlt]

/-- Retiring stale generations preserves every active sound's pinned
table: exactly the generations below the minimum pinned one are dropped,
and the pinned indices are renumbered by the same amount. -/
theorem spp_unload (r : DrumkitSequenceRenderer) :
    SoundsPinnedPreserved r r.unload_stale_samples := by
  by_cases hact : r.active_sounds = []
  · refine ⟨?_, ?_⟩
    · unfold DrumkitSequenceRenderer.unload_stale_samples
      dsimp only
      split <;> simp [hact]
    · intro i h1 h2
      rw [hact] at h1
      cases h1
  · obtain ⟨m, hm⟩ : ∃ m, minPinnedGeneration r.active_sounds = some m := by
      cases hl : r.active_sounds with
      | nil => exact absurd hl hact
      | cons a rest => exact minPinnedGeneration_isSome a rest
    have hunload : r.unload_stale_samples =
        if m > 0 then
          { r with
              samples := r.samples.drop m
              samples_current_generation := r.samples_current_generation - m
              active_sounds := r.active_sounds.map
                (fun s => { s with samples_generation := s.samples_generation - m }) }
        else r := by
      unfold DrumkitSequenceRenderer.unload_stale_samples
      rw [hm]
    rw [hunload]
    by_cases hmpos : m > 0
    · rw [if_pos hmpos]
      refine ⟨by simp, ?_⟩
      intro i h1 h2
      have hmem : r.active_sounds.get ⟨i, h1⟩ ∈ r.active_sounds :=
        List.get_mem r.active_sounds i h1
      have hmle : m ≤ (r.active_sounds.get ⟨i, h1⟩).samples_generation :=
        minPinnedGeneration_le _ m hm _ hmem
      simp only [List.get_eq_getElem] at hmle
      refine ⟨?_, ?_, ?_, ?_, ?_⟩ <;>
        simp only [List.get_eq_getElem, List.getElem_map]
      rw [List.getElem?_drop]
      congr 1
      omega
    · rw [if_neg hmpos]
      exact ⟨rfl, fun i h1 h2 => ⟨rfl, rfl, rfl, rfl, rfl⟩⟩

/-- C3: a sound started while the cache was at generation g keeps reading
the same label-to-audio table through any number of loader ingests
(load_samples_async completions) and stale-generation retirements: the
appended generations sit after the pinned one, and retirement drops and
renumbers only generations below the earliest pinned one.  Hypotheses:
every pinned generation is at most the current one and the current
generation exists, both invariants of reachable renderer states. -/
theorem C3_active_sound_generation_pinned (r : DrumkitSequenceRenderer)
    (polls : List ThreadedPromiseState)
    (hgen : ∀ s ∈ r.active_sounds, s.samples_generation ≤ r.samples_current_generation)
    (hcur : r.samples_current_generation < r.samples.length) :
    SoundsPinnedPreserved r (r.check_sample_loaders polls) := by
  unfold DrumkitSequenceRenderer.check_sample_loaders
  dsimp only
  split
  case isTrue h =>
    exact soundsPinnedPreserved_trans (spp_pushReady r polls hgen hcur)
      (spp_unload (pushReadyLoaders r polls))
  case isFalse h =>
    exact spp_pushReady r polls hgen hcur

/-- C3 witness: a renderer with one sound pinned to generation 0 ingests
one freshly loaded generation; the sound still reads generation 0's
table. -/
theorem C3_active_sound_generation_pinned_witness :
    SoundsPinnedPreserved demoRenderer
      (demoRenderer.check_sample_loaders [ThreadedPromiseState.Ready []]) :=
  C3_active_sound_generation_pinned demoRenderer [ThreadedPromiseState.Ready []]
    (by decide) (by decide)

/-- A divisor of two numbers divides their minimum. -/
theorem dvd_min_of_dvd {ch a b : Nat} (ha : ch ∣ a) (hb : ch ∣ b) : ch ∣ min a b := by
  rcases Nat.le_total a b with h | h
  · rw [Nat.min_eq_left h]; exact ha
  · rw [Nat.min_eq_right h]; exact hb

/-- Popping whole frames from a ring holding whole frames leaves whole
frames, for any pop of min (buffer length) (occupied) samples. -/
theorem popN_min_dvd {ch : Nat} (r : Ring) (n : Nat) (hocc : ch ∣ r.occupied)
    (hn : ch ∣ n) : ch ∣ (r.popN (min n r.occupied)).occupied := by
  unfold Ring.popN Ring.occupied at *
  dsimp only
  rw [List.length_drop]
  exact Nat.dvd_sub' hocc (dvd_min_of_dvd hn hocc)

/-- Pushing a whole-frame slice into a ring with whole-frame occupancy and
whole-frame capacity keeps whole-frame occupancy, even when the push is
truncated at capacity. -/
theorem pushSlice_dvd {ch : Nat} (r : Ring) (l : List ℚ) (hocc : ch ∣ r.occupied)
    (hcap : ch ∣ r.cap) (hl : ch ∣ l.length) : ch ∣ (r.pushSlice l).occupied := by
  unfold Ring.pushSlice Ring.occupied at *
  dsimp only
  rw [List.length_append, List.length_take]
  exact Nat.dvd_add hocc (dvd_min_of_dvd (Nat.dvd_sub' hcap hocc) hl)

/-- One mix_to_given_spec call preserves the overflow-ring invariant,
assuming the call contract: whole-frame output buffer and a converter
producing whole frames. -/
theorem mix_to_given_spec_ring_inv (g : SourceGroup) (out_spec : AudioSpec)
    (out_buffer : List ℚ) (rateconv : List ℚ → List ℚ)
    (hinv : SourceGroupRingInv out_spec.channels g)
    (hout : out_spec.channels ∣ out_buffer.length)
    (hconv : ∀ l, out_spec.channels ∣ (rateconv l).length) :
    ∀ g2 out2, g.mix_to_given_spec out_spec out_buffer rateconv = some (g2, out2) →
      SourceGroupRingInv out_spec.channels g2 := by
  obtain ⟨hocc, hcap⟩ := hinv
  intro g2 out2 h
  unfold SourceGroup.mix_to_given_spec at h
  dsimp only at h
  split_ifs at h
  all_goals cases h
  all_goals first
    | exact ⟨hocc, hcap⟩
    | exact ⟨popN_min_dvd _ _ hocc hout, hcap⟩
    | (refine ⟨?_, hcap⟩
       apply pushSlice_dvd _ _ (popN_min_dvd _ _ hocc hout) hcap
       rw [List.length_drop]
       exact Nat.dvd_sub' (hconv _) (dvd_mul_left _ _))

/-- Running a list of calls satisfying the contract preserves the
overflow-ring invariant. -/
theorem runMixCalls_ring_inv (out_spec : AudioSpec) :
    ∀ (pre : List MixCall) (g : SourceGroup),
      SourceGroupRingInv out_spec.channels g →
      (∀ c ∈ pre, MixCallContract out_spec.channels c) →
      ∀ g2, runMixCalls out_spec g pre = some g2 →
        SourceGroupRingInv out_spec.channels g2 := by
  intro pre
  induction pre with
  | nil =>
      intro g hinv _ g2 h
      unfold runMixCalls at h
      obtain rfl := Option.some.injEq .. ▸ h
      exact hinv
  | cons c rest ih =>
      intro g hinv hcontract g2 h
      unfold runMixCalls at h
      split at h
      · cases h
      case h_2 ga outa heq =>
        have hc : MixCallContract out_spec.channels c := hcontract c (by simp)
        have hinv2 := mix_to_given_spec_ring_inv g out_spec c.out_buffer c.rateconv
          ⟨hinv.1, hinv.2⟩ hc.1 hc.2 ga outa heq
        exact ih ga hinv2 (fun d hd => hcontract d (by simp [hd])) g2 h

/-- C4: for a source group whose overflow ring is empty or holds a whole
number of output-spec frames (its capacity being a whole number of such
frames, as SourceGroup::new arranges against a whole-frame output spec),
and any finite sequence of mix_to_given_spec calls with out_buffer.len
divisible by out_spec.channels and converter outputs in whole frames,
after each call (i.e. after every prefix of the sequence that returns
without panicking) the number of samples occupied in the
post-conversion overflow ring is divisible by out_spec.channels. -/
theorem C4_overflow_ring_whole_frames (out_spec : AudioSpec)
    (calls pre suf : List MixCall) (g : SourceGroup)
    (hinv : SourceGroupRingInv out_spec.channels g)
    (hcontract : ∀ c ∈ calls, MixCallContract out_spec.channels c)
    (hsplit : calls = pre ++ suf) :
    ∀ g2, runMixCalls out_spec g pre = some g2 →
      g2.post_conv_overflow_buf.occupied % out_spec.channels = 0 := by
  intro g2 h
  have hpre : ∀ c ∈ pre, MixCallContract out_spec.channels c := by
    intro c hc
    exact hcontract c (by rw [hsplit]; exact List.mem_append_left _ hc)
  obtain ⟨hd, -⟩ := runMixCalls_ring_inv out_spec pre g hinv hpre g2 h
  obtain ⟨k, hk⟩ := hd
  rw [hk, Nat.mul_mod_right]

/-- C4 counterexample: on the odd-capacity group (mono 3 Hz source into
stereo 6 Hz output, exactly as SourceGroup::new builds it), one
mix_to_given_spec call with a whole-frame output buffer and a whole-frame
converter result leaves 3 samples in the overflow ring: the four surplus
samples are truncated at the ring's capacity of 3 (ringbuf's push_slice
drops what does not fit), so the occupancy is not a whole number of
stereo frames and the claim as stated fails. -/
theorem C4_counterexample :
    2 ∣ oddCapCall.out_buffer.length ∧
    (oddCapGroup.mix_to_given_spec { samplerate := 6, channels := 2 }
        oddCapCall.out_buffer oddCapCall.rateconv).map
      (fun r => r.1.post_conv_overflow_buf.occupied % 2) = some 1 := by decide

/-- C4 witness: the demo group (stereo 2 Hz feeding stereo 4 Hz through a
rate converter) keeps a whole number of stereo frames in its overflow
ring after the demo call. -/
theorem C4_overflow_ring_whole_frames_witness :
    SourceGroupRingInv 2 demoGroup ∧
    runMixCalls { samplerate := 4, channels := 2 } demoGroup [demoCall] =
      some demoGroupAfter ∧
    demoGroupAfter.post_conv_overflow_buf.occupied % 2 = 0 := by
  have hcontract : ∀ c ∈ [demoCall], MixCallContract 2 c := by
    intro c hc
    rw [List.mem_singleton] at hc
    subst hc
    exact ⟨by decide, fun l => ⟨1, rfl⟩⟩
  refine ⟨by decide, by decide, ?_⟩
  exact C4_overflow_ring_whole_frames { samplerate := 4, channels := 2 } [demoCall]
    [demoCall] [] demoGroup (by decide) hcontract rfl demoGroupAfter (by decide)

/-- C9 witness at concrete inputs: double twice over three samples, and
drop from three channels to two over two frames. -/
theorem C9_doubled_and_drop_channels_witness :
    (doubled^[2] [1, 2, 3] = [1, 1, 1, 1, 2, 2, 2, 2, 3, 3, 3, 3] ∧
      (doubled^[2] [(1 : ℚ), 2, 3]).length = 3 * 2 ^ 2) ∧
    ((3 : Nat) > 2 ∧ ([(1 : ℚ), 2, 3, 1, 2, 3]).length = 2 * 3 ∧
      drop_channels [1, 2, 3, 1, 2, 3] 3 2 = [1, 2, 1, 2] ∧
      (drop_channels [1, 2, 3, 1, 2, 3] 3 2).length = 2 * 2) := by
  have h1 := (C9_doubled_and_drop_channels.1 [(1 : ℚ), 2, 3] 2).2
  have h2 := (C9_doubled_and_drop_channels.2 [(1 : ℚ), 2, 3, 1, 2, 3] 2 3 2
    (by decide) (by decide)).2
  exact ⟨⟨by decide, h1⟩, by decide, by decide, by decide, h2⟩

end MainTheorems

end Asampo
